import Mathlib

set_option maxRecDepth 1000000

/-!
Shallow embedding of the core of the SegyIO C library (lib/src/segy.c) and
proofs about it.  Machine integers are modelled as `Nat`/`Int` with explicit
`% 2^32` where 32-bit overflow matters.  Byte buffers and file contents are
`List Nat` (each element a byte value).  A 32-bit word stored in memory is a
single `Nat < 2^32`; the host is modelled as little-endian, so `ntohl` is
byte reversal.
-/

namespace Segy

/-- Error codes returned by the library (values from the SEGY_ERROR enum;
only their distinctness matters here). -/
inductive Err where
  | FSEEK | FREAD | FWRITE | INVALID_FIELD | INVALID_ARGS
  | INVALID_SORTING | INVALID_OFFSETS | TRACE_SIZE_MISMATCH
  | MISSING_LINE_INDEX | MMAP
  deriving DecidableEq, Repr

/-- Results of the fallible operations are compared with `decide` in the
concrete instances below, so equality of `Except` values must be decidable. -/
instance {ε α : Type} [DecidableEq ε] [DecidableEq α] : DecidableEq (Except ε α)
  | .error a, .error b =>
      match decEq a b with
      | isTrue h => isTrue (h ▸ rfl)
      | isFalse h => isFalse fun hc => h (Except.error.inj hc)
  | .error _, .ok _ => isFalse Except.noConfusion
  | .ok _, .error _ => isFalse Except.noConfusion
  | .ok a, .ok b =>
      match decEq a b with
      | isTrue h => isTrue (h ▸ rfl)
      | isFalse h => isFalse fun hc => h (Except.ok.inj hc)

/-- Byte reversal of a 32-bit word: `ntohl` on a little-endian host.
`htonl` is the same function. -/
def ntohl (w : Nat) : Nat :=
  (w % 256) * 16777216 + (w / 256 % 256) * 65536 +
  (w / 65536 % 256) * 256 + (w / 16777216 % 256)

/-- The `while (fr < 0x80000000) { --exp; fr <<= 1; }` normalization loop of
`ibm2ieee`.  The C loop is an unbounded while; it left-shifts a nonzero
32-bit value until its top bit is set, hence runs at most 31 times, so any
fuel ≥ 31 computes the loop exactly.  The caller passes fuel 32. -/
def normalize32 : Nat → Nat → Int → Nat × Int
  | 0, fr, exp => (fr, exp)
  | fuel + 1, fr, exp =>
      if fr < 2 ^ 31 then normalize32 fuel (fr * 2 % 2 ^ 32) (exp - 1) else (fr, exp)

/-- `ibm2ieee` from segy.c: input is the 32-bit word as stored in memory
(big-endian IBM single), output the native (host-order) IEEE single bit
pattern.  The three fields assembled at `done` occupy disjoint bit ranges
(`fr >> 9 < 2^23`, `0 ≤ exp ≤ 255` shifted to bits 23..30, sign at bit 31),
so the C bitwise ors are written as additions. -/
def ibm2ieee (w : Nat) : Nat :=
  let fr0 := ntohl (w % 2 ^ 32)
  let sgn := fr0 / 2 ^ 31
  let fr1 := fr0 * 2 % 2 ^ 32
  let exp0 : Int := (fr1 / 2 ^ 25 : Nat)
  let fr2 := fr1 * 2 ^ 7 % 2 ^ 32
  if fr2 = 0 then
    0 / 2 ^ 9 + 0 * 2 ^ 23 + sgn * 2 ^ 31
  else
    let p := normalize32 32 fr2 (exp0 * 4 - 130)
    let fr3 := p.1
    let exp2 := p.2
    if exp2 ≤ 0 then
      let fr4 := if exp2 < -24 then 0 else fr3 / 2 ^ (-exp2).toNat
      fr4 / 2 ^ 9 + 0 * 2 ^ 23 + sgn * 2 ^ 31
    else if 255 ≤ exp2 then
      0 / 2 ^ 9 + 255 * 2 ^ 23 + sgn * 2 ^ 31
    else
      (fr3 * 2 % 2 ^ 32) / 2 ^ 9 + exp2.toNat * 2 ^ 23 + sgn * 2 ^ 31

/-- The `while (fr < 0x10000000) { --exp; fr <<= 4; }` renormalization loop
of `ieee2ibm`.  On every reachable call `fr ≥ 2^7`, so at most 6 iterations
happen; the caller passes fuel 8. -/
def renormalize16 : Nat → Nat → Int → Nat × Int
  | 0, fr, exp => (fr, exp)
  | fuel + 1, fr, exp =>
      if fr < 2 ^ 28 then renormalize16 fuel (fr * 16 % 2 ^ 32) (exp - 1) else (fr, exp)

/-- The part of `ieee2ibm` after the initial case split (from `exp += 130`
to `done`), for the fall-through paths. -/
def ieee2ibm_tail (sgn fr : Nat) (exp : Int) : Nat :=
  let exp1 := exp + 130
  let fr1 := fr / 2 ^ ((-exp1) % 4).toNat
  let exp2 := (exp1 + 3) / 4
  let p := renormalize16 8 fr1 exp2
  ntohl (p.1 / 2 ^ 8 + p.2.toNat * 2 ^ 24 + sgn * 2 ^ 31)

/-- `ieee2ibm` from segy.c: input the native IEEE single bit pattern, output
the 32-bit word to store in memory (big-endian IBM single).  As in
`ibm2ieee` the assembled fields are bit-disjoint, so ors are additions;
`-exp & 3` on a two's-complement int equals `(-exp) mod 4`, and
`(exp + 3) >> 2` on the positive exp equals floor division by 4. -/
def ieee2ibm (y : Nat) : Nat :=
  let w := y % 2 ^ 32
  let sgn := w / 2 ^ 31
  let fr0 := w * 2 % 2 ^ 32
  let exp0 : Int := (fr0 / 2 ^ 24 : Nat)
  let fr1 := fr0 * 2 ^ 8 % 2 ^ 32
  if exp0 = 255 then
    ntohl (4294967040 / 2 ^ 8 + 127 * 2 ^ 24 + sgn * 2 ^ 31)
  else if 0 < exp0 then
    ieee2ibm_tail sgn (fr1 / 2 + 2 ^ 31) exp0
  else if fr1 = 0 then
    ntohl (fr1 / 2 ^ 8 + exp0.toNat * 2 ^ 24 + sgn * 2 ^ 31)
  else
    ieee2ibm_tail sgn fr1 exp0

/-- The `a2e` ASCII-to-EBCDIC lookup table of segy.c, entry for entry. -/
def a2e_tbl : List Nat := [
    0,  1,  2,  3,  55, 45, 46, 47, 22, 5,  37, 11, 12, 13, 14, 15,
    16, 17, 18, 19, 60, 61, 50, 38, 24, 25, 63, 39, 28, 29, 30, 31,
    64, 79, 127,123,91, 108,80, 125,77, 93, 92, 78, 107,96, 75, 97,
    240,241,242,243,244,245,246,247,248,249,122,94, 76, 126,110,111,
    124,193,194,195,196,197,198,199,200,201,209,210,211,212,213,214,
    215,216,217,226,227,228,229,230,231,232,233,74, 224,90, 95, 109,
    121,129,130,131,132,133,134,135,136,137,145,146,147,148,149,150,
    151,152,153,162,163,164,165,166,167,168,169,192,106,208,161,7,
    32, 33, 34, 35, 36, 21, 6,  23, 40, 41, 42, 43, 44, 9,  10, 27,
    48, 49, 26, 51, 52, 53, 54, 8,  56, 57, 58, 59, 4,  20, 62, 225,
    65, 66, 67, 68, 69, 70, 71, 72, 73, 81, 82, 83, 84, 85, 86, 87,
    88, 89, 98, 99, 100,101,102,103,104,105,112,113,114,115,116,117,
    118,119,120,128,138,139,140,141,142,143,144,154,155,156,157,158,
    159,160,170,171,172,173,174,175,176,177,178,179,180,181,182,183,
    184,185,186,187,188,189,190,191,202,203,204,205,206,207,218,219,
    220,221,222,223,234,235,236,237,238,239,250,251,252,253,254,255]

/-- The `e2a` EBCDIC-to-ASCII lookup table of segy.c, entry for entry. -/
def e2a_tbl : List Nat := [
    0,  1,  2,  3,  156,9,  134,127,151,141,142, 11,12, 13, 14, 15,
    16, 17, 18, 19, 157,133,8,  135,24, 25, 146,143,28, 29, 30, 31,
    128,129,130,131,132,10, 23, 27, 136,137,138,139,140,5,  6,  7,
    144,145,22, 147,148,149,150,4,  152,153,154,155,20, 21, 158,26,
    32, 160,161,162,163,164,165,166,167,168,91, 46, 60, 40, 43, 33,
    38, 169,170,171,172,173,174,175,176,177,93, 36, 42, 41, 59, 94,
    45, 47, 178,179,180,181,182,183,184,185,124,44, 37, 95, 62, 63,
    186,187,188,189,190,191,192,193,194,96, 58, 35, 64, 39, 61, 34,
    195,97, 98, 99, 100,101,102,103,104,105,196,197,198,199,200,201,
    202,106,107,108,109,110,111,112,113,114,203,204,205,206,207,208,
    209,126,115,116,117,118,119,120,121,122,210,211,212,213,214,215,
    216,217,218,219,220,221,222,223,224,225,226,227,228,229,230,231,
    123,65, 66, 67, 68, 69, 70, 71, 72, 73, 232,233,234,235,236,237,
    125,74, 75, 76, 77, 78, 79, 80, 81, 82, 238,239,240,241,242,243,
    92, 159,83, 84, 85, 86, 87, 88, 89, 90, 244,245,246,247,248,249,
    48, 49, 50, 51, 52, 53, 54, 55, 56, 57, 250,251,252,253,254,255]

/-- `a2e[c]` for a byte value `c`. -/
def a2e (c : Nat) : Nat := a2e_tbl.getD c 0

/-- `e2a[c]` for a byte value `c`. -/
def e2a (c : Nat) : Nat := e2a_tbl.getD c 0

/-- `ebcdic2ascii` from segy.c: transcode bytes until the first NUL and
write a terminating NUL.  A buffer without a NUL would make the C loop read
past the supplied bytes; the model stops at the end of the list and writes
the terminator. -/
def ebcdic2ascii : List Nat → List Nat
  | [] => [0]
  | c :: rest => if c = 0 then [0] else e2a c :: ebcdic2ascii rest

/-- `ascii2ebcdic` from segy.c, same loop shape as `ebcdic2ascii`. -/
def ascii2ebcdic : List Nat → List Nat
  | [] => [0]
  | c :: rest => if c = 0 then [0] else a2e c :: ascii2ebcdic rest

/-!  Field-size tables.

Modelled from the spec: the numeric values of the SEGY_FIELD and
SEGY_BINFIELD enums live in segyio/segy.h, which is not among the provided
sources.  The byte positions are the SEG-Y rev.1 standard offsets the spec
refers to (§3, §6: trace fields are 1-based offsets in 1..240 with
inline = 189, crossline = 193, offset = 37; binary fields are 3201..3600,
stored biased by −3200).  The width of every field is exactly the width
segy.c's `field_size` / `bfield_size` tables assign to it; offsets carrying
no field have width 0. -/

/-- Trace-header field widths, segy.c `field_size` (index = 1-based byte
offset of the field, value = width in bytes; 0 = no recognized field). -/
def field_size (f : Nat) : Nat :=
  if [1, 5, 9, 13, 17, 21, 25, 37, 41, 45, 49, 53, 57, 61, 65, 73, 77,
      81, 85, 181, 185, 189, 193, 197, 205, 219, 229, 233, 237].contains f then 4
  else if [29, 31, 33, 35, 69, 71, 89, 91, 93, 95, 97, 99, 101, 103, 105,
      107, 109, 111, 113, 115, 117, 119, 121, 123, 125, 127, 129, 131, 133,
      135, 137, 139, 141, 143, 145, 147, 149, 151, 153, 155, 157, 159, 161,
      163, 165, 167, 169, 171, 173, 175, 177, 179, 201, 203, 209, 211, 213,
      215, 217, 223, 225, 231].contains f then 2
  else 0

/-- Binary-header field widths, segy.c `bfield_size` (index = byte offset
biased by −3200, i.e. 1-based offset inside the 400-byte binary header). -/
def bfield_size (f : Nat) : Nat :=
  if [1, 5, 9].contains f then 4
  else if [13, 15, 17, 19, 21, 23, 25, 27, 29, 31, 33, 35, 37, 39, 41, 43,
      45, 47, 49, 51, 53, 55, 57, 59, 301, 303, 305].contains f then 2
  else 0

/-- Field-offset constants used by segy.c call sites (values from the spec:
inline 189, crossline 193, offset 37, format code 3225, extended headers
3505; sample counts and intervals at their SEG-Y rev.1 positions). -/
def INLINE_3D : Int := 189

def CROSSLINE_3D : Int := 193

def field_offset : Int := 37

def TRACE_SAMPLE_INTERVAL : Int := 117

def BIN_Interval : Int := 3217

def BIN_Samples : Int := 3221

def BIN_Format : Int := 3225

def BIN_ExtendedHeaders : Int := 3505

/-- Sorting codes (SEGY_SORTING enum; only distinctness is relied on). -/
def UNKNOWN_SORTING : Int := 0

def CROSSLINE_SORTING : Int := 1

def INLINE_SORTING : Int := 2

/-- Format code 5 = 4-byte IEEE float (spec §6). -/
def IEEE_FLOAT_4_BYTE : Int := 5

/-- Big-endian value of the `n` bytes of `buf` starting at index `pos`: the
`memcpy` plus `ntohs`/`ntohl` performed by segy.c's `get_field`.  A byte
beyond the buffer reads as 0 (out-of-model in C). -/
def beread (buf : List Nat) : Nat → Nat → Nat
  | _, 0 => 0
  | pos, n + 1 => buf.getD pos 0 % 256 * 256 ^ n + beread buf (pos + 1) n

/-- Reinterpret a 32-bit value as a signed two's-complement integer
(the `(int32_t)` cast of get_field). -/
def toInt32 (v : Nat) : Int := if v < 2 ^ 31 then (v : Int) else (v : Int) - 2 ^ 32

/-- Reinterpret a 16-bit value as a signed two's-complement integer
(the `(int16_t)` cast of get_field). -/
def toInt16 (v : Nat) : Int := if v < 2 ^ 15 then (v : Int) else (v : Int) - 2 ^ 16

/-- `get_field` from segy.c: branch on the table width at `field`, read 4 or
2 bytes big-endian starting at `field - 1`, sign-extend; width 0 (and the
switch default) is `SEGY_INVALID_FIELD`. -/
def get_field (header : List Nat) (table : Nat → Nat) (field : Nat) : Except Err Int :=
  match table field with
  | 4 => .ok (toInt32 (beread header (field - 1) 4))
  | 2 => .ok (toInt16 (beread header (field - 1) 2))
  | _ => .error .INVALID_FIELD

/-- `segy_get_field`: bounds-check the trace-header field offset, then
`get_field` against the trace table. -/
def segy_get_field (traceheader : List Nat) (field : Int) : Except Err Int :=
  if field < 0 ∨ 240 ≤ field then .error .INVALID_FIELD
  else get_field traceheader field_size field.toNat

/-- `segy_get_bfield`: un-bias the binary-header field offset by 3200,
bounds-check, then `get_field` against the binary table. -/
def segy_get_bfield (binheader : List Nat) (field : Int) : Except Err Int :=
  if field - 3200 < 0 ∨ 400 ≤ field - 3200 then .error .INVALID_FIELD
  else get_field binheader bfield_size (field - 3200).toNat

/-- Value of a trace-header field at a call site that ignores
`segy_get_field`'s return code (segy.c does so only after validating the
field, so the 0 default of the error branch is never reached there). -/
def getf (header : List Nat) (field : Int) : Int :=
  match segy_get_field header field with
  | .ok v => v
  | .error _ => 0

/-- Value of a binary-header field at a call site that ignores the return
code of `segy_get_bfield`; same remark as for `getf`. -/
def getbf (binheader : List Nat) (field : Int) : Int :=
  match segy_get_bfield binheader field with
  | .ok v => v
  | .error _ => 0

/-!  File-handle layer.

A `segy_file` is the struct of segy.c: the byte contents of the open file,
whether `segy_mmap` has installed a mapping (`addr != NULL`), and the open
mode string.  Positions are `Int` because `trace0` is a C `long` and can go
negative when the extended-header count field is negative.  Each operation
starts with an absolute reposition, so the stream/cursor position needs no
threading between operations; writes return the new file contents. -/
structure segy_file where
  contents : List Nat
  mapped : Bool
  mode : String
  deriving DecidableEq, Repr

/-- The `n` bytes of `contents` starting at `pos` — what `fread` delivers
(possibly short, its count is the length of this list) and what a mapped
`memcpy` copies. -/
def sliceBytes (contents : List Nat) (pos n : Nat) : List Nat :=
  (contents.drop pos).take n

/-- Overwrite `data` into `contents` at position `pos`, zero-filling the gap
when `pos` is past the end (the POSIX behaviour of writing after seeking
past end-of-file). -/
def storeBytes (contents : List Nat) (pos : Nat) (data : List Nat) : List Nat :=
  contents.take pos ++ List.replicate (pos - contents.length) 0 ++ data
    ++ contents.drop (pos + data.length)

/-- Pad or cut a caller buffer to the byte count an operation transfers
from it.  segy.c reads exactly that many bytes from the caller's pointer; a
shorter buffer is out-of-model in C, modelled as zero bytes. -/
def padTo (buf : List Nat) (n : Nat) : List Nat :=
  buf.take n ++ List.replicate (n - buf.length) 0

/-- `fwrite(data, 1, data.length, fp)` at stream position `pos`.  A stream
opened "rb" was not opened for writing, so ISO C stdio transfers nothing
and the count is 0; otherwise all bytes are written.  Returns the count and
the new file contents. -/
def fwrite_bytes (fp : segy_file) (pos : Nat) (data : List Nat) : Nat × List Nat :=
  if fp.mode = "rb" then (0, fp.contents)
  else (data.length, storeBytes fp.contents pos data)

/-- `segy_seek` from segy.c: position `trace0 + trace · (trace_bsize + 240)`.
Mapped: fail when the (size_t-cast) position is outside the mapping, else
move the cursor.  Buffered: `fseek(SEEK_SET)` succeeds at any nonnegative
offset (also past end-of-file) and fails on a negative one.  Returns the
position the following data access uses. -/
def segy_seek (fp : segy_file) (traceno : Nat) (trace0 : Int) (trace_bsize : Nat) :
    Except Err Int :=
  let pos : Int := trace0 + traceno * ((trace_bsize : Int) + 240)
  if fp.mapped then
    if pos < 0 ∨ (fp.contents.length : Int) ≤ pos then .error .FSEEK else .ok pos
  else
    if pos < 0 then .error .FSEEK else .ok pos

/-- `segy_traceheader`: seek to the trace, then `memcpy` 240 bytes from the
mapping, or `fread` 240 bytes and fail on a short count. -/
def segy_traceheader (fp : segy_file) (traceno : Nat) (trace0 : Int)
    (trace_bsize : Nat) : Except Err (List Nat) :=
  match segy_seek fp traceno trace0 trace_bsize with
  | .error e => .error e
  | .ok pos =>
      if fp.mapped then
        .ok (sliceBytes fp.contents pos.toNat 240)
      else
        let buf := sliceBytes fp.contents pos.toNat 240
        if buf.length = 240 then .ok buf else .error .FREAD

/-- `segy_write_traceheader`: seek, then `memcpy` 240 bytes into the
mapping (unconditionally reported as OK), or `fwrite` them and fail on a
short count. -/
def segy_write_traceheader (fp : segy_file) (traceno : Nat) (buf : List Nat)
    (trace0 : Int) (trace_bsize : Nat) : Except Err Unit × List Nat :=
  match segy_seek fp traceno trace0 trace_bsize with
  | .error e => (.error e, fp.contents)
  | .ok pos =>
      if fp.mapped then
        (.ok (), storeBytes fp.contents pos.toNat (padTo buf 240))
      else
        let r := fwrite_bytes fp pos.toNat (padTo buf 240)
        if r.1 = 240 then (.ok (), r.2) else (.error .FWRITE, r.2)

/-- `skip_traceheader`: advance the mapped cursor, or `fseek(SEEK_CUR)`, by
240 bytes; neither branch checks bounds or fails. -/
def skip_traceheader (pos : Int) : Int := pos + 240

/-- `segy_readtrace`: seek, skip the trace header, then `memcpy`
`trace_bsize` bytes from the mapping or `fread` them with a short-count
check. -/
def segy_readtrace (fp : segy_file) (traceno : Nat) (trace0 : Int)
    (trace_bsize : Nat) : Except Err (List Nat) :=
  match segy_seek fp traceno trace0 trace_bsize with
  | .error e => .error e
  | .ok pos =>
      let cur := skip_traceheader pos
      if fp.mapped then
        .ok (sliceBytes fp.contents cur.toNat trace_bsize)
      else
        let buf := sliceBytes fp.contents cur.toNat trace_bsize
        if buf.length = trace_bsize then .ok buf else .error .FREAD

/-- `segy_writetrace`: seek, skip the trace header, then `memcpy` into the
mapping or `fwrite` with a short-count check. -/
def segy_writetrace (fp : segy_file) (traceno : Nat) (buf : List Nat)
    (trace0 : Int) (trace_bsize : Nat) : Except Err Unit × List Nat :=
  match segy_seek fp traceno trace0 trace_bsize with
  | .error e => (.error e, fp.contents)
  | .ok pos =>
      let cur := skip_traceheader pos
      if fp.mapped then
        (.ok (), storeBytes fp.contents cur.toNat (padTo buf trace_bsize))
      else
        let r := fwrite_bytes fp cur.toNat (padTo buf trace_bsize)
        if r.1 = trace_bsize then (.ok (), r.2) else (.error .FWRITE, r.2)

/-- `segy_binheader` (read): always through the stream — `fseek` to 3200,
`fread` 400 bytes, short count is `SEGY_FREAD_ERROR`. -/
def segy_binheader (fp : segy_file) : Except Err (List Nat) :=
  let buf := sliceBytes fp.contents 3200 400
  if buf.length = 400 then .ok buf else .error .FREAD

/-- `segy_write_binheader`: always through the stream — `fseek` to 3200,
`fwrite` 400 bytes, short count is `SEGY_FWRITE_ERROR`. -/
def segy_write_binheader (fp : segy_file) (buf : List Nat) :
    Except Err Unit × List Nat :=
  let r := fwrite_bytes fp 3200 (padTo buf 400)
  if r.1 = 400 then (.ok (), r.2) else (.error .FWRITE, r.2)

/-- `segy_write_textheader`: ASCII→EBCDIC transcode into a stack buffer,
seek to `pos == 0 ? 0 : 3600 + (pos − 1) · 3200`, `fwrite` 3200 bytes of
that buffer through the stream.  The bytes past the transcoded terminator
are unspecified stack contents in C; they are modelled as zeros, and are
only ever written when the stream is writable. -/
def segy_write_textheader (fp : segy_file) (pos : Nat) (buf : List Nat) :
    Except Err Unit × List Nat :=
  let mbuf := ascii2ebcdic buf
  let off := if pos = 0 then 0 else 3200 + 400 + (pos - 1) * 3200
  let r := fwrite_bytes fp off (padTo mbuf 3200)
  if r.1 = 3200 then (.ok (), r.2) else (.error .FWRITE, r.2)

/-- `segy_format`: the format code field of the binary header. -/
def segy_format (binheader : List Nat) : Int := getbf binheader BIN_Format

/-- `segy_samples`: the sample-count field, cast `(unsigned int)`. -/
def segy_samples (binheader : List Nat) : Nat :=
  ((getbf binheader BIN_Samples) % (2 ^ 32)).toNat

/-- `segy_trace_bsize`: `samples * 4` in unsigned 32-bit arithmetic. -/
def segy_trace_bsize (samples : Nat) : Nat := samples * 4 % 2 ^ 32

/-- `segy_trace0`: `3200 + 400 + 3200 · extended_headers`, a C `long`. -/
def segy_trace0 (binheader : List Nat) : Int :=
  3200 + 400 + 3200 * getbf binheader BIN_ExtendedHeaders

/-- `segy_traces`: `(file_size − trace0) / (trace_bsize + 240)` with the
exact-division check.  The subtraction happens in `size_t`, so a `trace0`
beyond the file size wraps modulo 2^64 (64-bit size_t). -/
def segy_traces (fp : segy_file) (trace0 : Int) (trace_bsize : Nat) :
    Except Err Nat :=
  let tsize := trace_bsize + 240
  let tds := ((((fp.contents.length : Int)) - trace0) % (2 ^ 64)).toNat
  if tds % tsize = 0 then .ok (tds / tsize) else .error .TRACE_SIZE_MISMATCH

/-!  Geometry layer. -/

/-- `segy_sample_interval` from segy.c.  The output parameter `dt` is
in/out: the paths that assign nothing (both intervals zero, or both
non-zero and unequal) leave the caller's value untouched.  The divisions by
1000.0 are modelled over `ℚ`; the two interval reads cannot fail (both
fields have width 2), so the ignored return codes are modelled by `getbf` /
`getf`. -/
def segy_sample_interval (fp : segy_file) (dt : ℚ) : Except Err ℚ :=
  match segy_binheader fp with
  | .error e => .error e
  | .ok bin_header =>
      let trace0 := segy_trace0 bin_header
      let samples := segy_samples bin_header
      let trace_bsize := segy_trace_bsize samples
      match segy_traceheader fp 0 trace0 trace_bsize with
      | .error e => .error e
      | .ok trace_header =>
          let binary_header_dt_us := getbf bin_header BIN_Interval
          let trace_header_dt_us := getf trace_header TRACE_SAMPLE_INTERVAL
          let binary_header_dt_ms : ℚ := (binary_header_dt_us : ℚ) / 1000
          let trace_header_dt_ms : ℚ := (trace_header_dt_us : ℚ) / 1000
          if trace_header_dt_us = 0 ∧ binary_header_dt_us = 0 then .ok dt
          else if binary_header_dt_us = 0 then .ok trace_header_dt_ms
          else if trace_header_dt_us = 0 then .ok binary_header_dt_ms
          else if trace_header_dt_us = binary_header_dt_us then .ok trace_header_dt_ms
          else .ok dt

/-- The do/while walk of `segy_sorting`, reading trace `traceno` and
continuing while the offset field still differs from trace 0's offset and
more traces remain.  `rem` is the number of loop iterations the guard
`traceno < traces` still permits, i.e. `traces - 1 - traceno`; the
recursion is on `rem`, which mirrors that guard exactly. -/
def sorting_walk (fp : segy_file) (il xl off0 : Int) (trace0 : Int)
    (trace_bsize : Nat) : Nat → Nat → Except Err (Int × Int)
  | traceno, 0 =>
      match segy_traceheader fp traceno trace0 trace_bsize with
      | .error e => .error e
      | .ok h => .ok (getf h il, getf h xl)
  | traceno, rem + 1 =>
      match segy_traceheader fp traceno trace0 trace_bsize with
      | .error e => .error e
      | .ok h =>
          if off0 ≠ getf h field_offset then
            sorting_walk fp il xl off0 trace0 trace_bsize (traceno + 1) rem
          else .ok (getf h il, getf h xl)

/-- `segy_sorting` from segy.c: read trace 0's inline/crossline/offset,
validate the field offsets, count the traces, walk forward until the offset
field equals trace 0's offset again (or the last trace is reached), read
the last trace, and apply the tie-break chain. -/
def segy_sorting (fp : segy_file) (il xl : Int) (trace0 : Int)
    (trace_bsize : Nat) : Except Err Int :=
  match segy_traceheader fp 0 trace0 trace_bsize with
  | .error e => .error e
  | .ok th0 =>
  if il < 0 ∨ 240 ≤ il then .error .INVALID_FIELD
  else if xl < 0 ∨ 240 ≤ xl then .error .INVALID_FIELD
  else if field_size il.toNat = 0 ∨ field_size xl.toNat = 0 then .error .INVALID_FIELD
  else
    let il0 := getf th0 il
    let xl0 := getf th0 xl
    let off0 := getf th0 field_offset
    match segy_traces fp trace0 trace_bsize with
    | .error e => .error e
    | .ok traces =>
        match sorting_walk fp il xl off0 trace0 trace_bsize 1 (traces - 2) with
        | .error e => .error e
        | .ok p =>
            match segy_traceheader fp (traces - 1) trace0 trace_bsize with
            | .error e => .error e
            | .ok thl =>
                let il_last := getf thl il
                let xl_last := getf thl xl
                if il0 = il_last then .ok CROSSLINE_SORTING
                else if xl0 = xl_last then .ok INLINE_SORTING
                else if il0 = p.1 then .ok INLINE_SORTING
                else if xl0 = p.2 then .ok CROSSLINE_SORTING
                else .error .INVALID_SORTING

/-- The `while (true)` loop of `count_lines` in segy.c, with explicit fuel:
`none` means the fuel ran out with the loop still running, `some r` is the
loop's own outcome.  Each iteration reads the header at `curr`, returns the
read error if any, breaks with the accumulated line count when both the
line field and the offset field match trace 0's values, and otherwise
continues at `curr + offsets`. -/
def count_lines_loop (fp : segy_file) (field : Int) (offsets : Nat)
    (first_lineno first_offset : Int) (trace0 : Int) (trace_bsize : Nat) :
    Nat → Nat → Nat → Option (Except Err Nat)
  | 0, _, _ => none
  | fuel + 1, curr, lines =>
      match segy_traceheader fp curr trace0 trace_bsize with
      | .error e => some (.error e)
      | .ok h =>
          if first_offset = getf h field_offset ∧ getf h field = first_lineno then
            some (.ok lines)
          else
            count_lines_loop fp field offsets first_lineno first_offset trace0
              trace_bsize fuel (curr + offsets) (lines + 1)

/-- `count_lines` from segy.c: read trace 0's line field and offset field
(both return codes checked here), then run the loop from trace `offsets`
with one line counted. -/
def count_lines (fp : segy_file) (field : Int) (offsets : Nat) (trace0 : Int)
    (trace_bsize : Nat) (fuel : Nat) : Option (Except Err Nat) :=
  match segy_traceheader fp 0 trace0 trace_bsize with
  | .error e => some (.error e)
  | .ok header =>
      match segy_get_field header field with
      | .error e => some (.error e)
      | .ok first_lineno =>
          match segy_get_field header field_offset with
          | .error e => some (.error e)
          | .ok first_offset =>
              count_lines_loop fp field offsets first_lineno first_offset trace0
                trace_bsize fuel offsets 1

/-- `segy_to_native` from segy.c: the first `size` 32-bit words of the
sample buffer are byte-swapped when the format is `IEEE_FLOAT_4_BYTE`, and
otherwise — for every other format code — converted with `ibm2ieee`. -/
def segy_to_native (format : Int) (size : Nat) (buf : List Nat) : List Nat :=
  if format = IEEE_FLOAT_4_BYTE then (buf.take size).map ntohl ++ buf.drop size
  else (buf.take size).map ibm2ieee ++ buf.drop size

/-- `segy_from_native` from segy.c, the inverse direction. -/
def segy_from_native (format : Int) (size : Nat) (buf : List Nat) : List Nat :=
  if format = IEEE_FLOAT_4_BYTE then (buf.take size).map ntohl ++ buf.drop size
  else (buf.take size).map ieee2ibm ++ buf.drop size

/-- The loop of `segy_read_line`: read `n` traces starting at trace `t`,
stepping by `stride` (already multiplied by `offsets`), concatenating the
sample buffers.  The caller's buffer advances by `trace_bsize` bytes per
trace (`trace_bsize / 4` floats), which concatenation models for the
4-byte-aligned trace sizes the library lays out. -/
def read_line_loop (fp : segy_file) (stride : Nat) (trace0 : Int)
    (trace_bsize : Nat) : Nat → Nat → Except Err (List Nat)
  | _, 0 => .ok []
  | t, n + 1 =>
      match segy_readtrace fp t trace0 trace_bsize with
      | .error e => .error e
      | .ok b =>
          match read_line_loop fp stride trace0 trace_bsize (t + stride) n with
          | .error e => .error e
          | .ok rest => .ok (b ++ rest)

/-- `segy_read_line` from segy.c: `stride *= offsets`, then read
`line_length` traces from `line_trace0` (which is *not* multiplied by
`offsets`). -/
def segy_read_line (fp : segy_file) (line_trace0 line_length stride offsets : Nat)
    (trace0 : Int) (trace_bsize : Nat) : Except Err (List Nat) :=
  read_line_loop fp (stride * offsets) trace0 trace_bsize line_trace0 line_length

/-- The loop of `segy_write_line`, threading the file contents through the
per-trace writes and consuming `trace_bsize` bytes of the caller's buffer
per trace. -/
def write_line_loop (fp : segy_file) (stride : Nat) (trace0 : Int)
    (trace_bsize : Nat) : Nat → List Nat → Nat → Except Err Unit × List Nat
  | _, _, 0 => (.ok (), fp.contents)
  | t, buf, n + 1 =>
      match segy_writetrace fp t buf trace0 trace_bsize with
      | (.error e, c) => (.error e, c)
      | (.ok _, c) =>
          write_line_loop { fp with contents := c } stride trace0 trace_bsize
            (t + stride) (buf.drop (trace_bsize / 4 * 4)) n

/-- `segy_write_line` from segy.c: `line_trace0 *= offsets` and
`stride *= offsets`, then write `line_length` traces from there. -/
def segy_write_line (fp : segy_file) (line_trace0 line_length stride offsets : Nat)
    (buf : List Nat) (trace0 : Int) (trace_bsize : Nat) : Except Err Unit × List Nat :=
  write_line_loop fp (stride * offsets) trace0 trace_bsize (line_trace0 * offsets)
    buf line_length

/-!  Specification-side views used to state the claims. -/

/-- The byte position of trace `t`. -/
def trace_pos (trace0 : Int) (trace_bsize t : Nat) : Int :=
  trace0 + t * ((trace_bsize : Int) + 240)

/-- The header bytes of trace `t` as they lie in the file. -/
def headerAt (contents : List Nat) (trace0 : Int) (trace_bsize t : Nat) : List Nat :=
  sliceBytes contents (trace_pos trace0 trace_bsize t).toNat 240

/-- The value of header field `f` of trace `t` as it lies in the file. -/
def fieldAt (contents : List Nat) (trace0 : Int) (trace_bsize t : Nat) (f : Int) : Int :=
  getf (headerAt contents trace0 trace_bsize t) f

/-- The trace index at which `sorting_walk` stops: the first `t` (from `t`,
with `rem` permitted iterations) whose offset field equals trace 0's
offset, or the trace reached when the iterations run out. -/
def stop_index (offAt : Nat → Int) (off0 : Int) : Nat → Nat → Nat
  | t, 0 => t
  | t, rem + 1 => if off0 ≠ offAt t then stop_index offAt off0 (t + 1) rem else t

/-- The trace index at which the walk described by the *spec* stops: the
spec's detect_sorting walks forward "until either offset changes or
end-of-file is reached", i.e. stops at the first trace whose offset field
differs from trace 0's offset. -/
def spec_stop_index (offAt : Nat → Int) (off0 : Int) : Nat → Nat → Nat
  | t, 0 => t
  | t, rem + 1 => if off0 = offAt t then spec_stop_index offAt off0 (t + 1) rem else t

/-- The tie-break table shared by the spec and segy.c, applied to trace 0,
trace `t1` (the stop trace of the walk) and the last trace. -/
def sorting_table (contents : List Nat) (trace0 : Int) (trace_bsize : Nat)
    (il xl : Int) (t1 tlast : Nat) : Except Err Int :=
  let fa := fieldAt contents trace0 trace_bsize
  if fa 0 il = fa tlast il then .ok CROSSLINE_SORTING
  else if fa 0 xl = fa tlast xl then .ok INLINE_SORTING
  else if fa 0 il = fa t1 il then .ok INLINE_SORTING
  else if fa 0 xl = fa t1 xl then .ok CROSSLINE_SORTING
  else .error .INVALID_SORTING

/-- Modelled from the spec: the sorting detection as claim C3 reads it —
the tie-break table with "trace 1" being the trace the *spec's*
walk-forward loop stops at (first offset change or end of file). -/
def detect_sorting_claimed (contents : List Nat) (trace0 : Int)
    (trace_bsize T : Nat) (il xl : Int) : Except Err Int :=
  let offAt := fun t => fieldAt contents trace0 trace_bsize t field_offset
  let t1 := spec_stop_index offAt (offAt 0) 1 (T - 2)
  sorting_table contents trace0 trace_bsize il xl t1 (T - 1)

/-- The leading-zero hex-digit count of a 24-bit IBM fraction: how many
left shifts `ibm2ieee`'s normalization loop performs on a normalized (top
hex digit nonzero) fraction. -/
def lzk (f : Nat) : Nat :=
  if 2 ^ 23 ≤ f then 0 else if 2 ^ 22 ≤ f then 1 else if 2 ^ 21 ≤ f then 2 else 3

/-!  Concrete files used to instantiate the theorems. -/

/-- A 32-bit value as four big-endian bytes. -/
def be4 (v : Nat) : List Nat :=
  [v / 16777216 % 256, v / 65536 % 256, v / 256 % 256, v % 256]

/-- A 240-byte trace header with the given inline (byte 189), crossline
(byte 193) and offset (byte 37) field values and zeros elsewhere. -/
def mkhdr (il xl off : Nat) : List Nat :=
  List.replicate 36 0 ++ be4 off ++ List.replicate 148 0 ++ be4 il ++ be4 xl
    ++ List.replicate 44 0

/-- Four header-only traces (trace0 = 0, trace_bsize = 0) on which the
code's walk and the spec's walk stop at different traces: offsets are
5, 5, 7, 7, so the code's walk (stop when the offset equals trace 0's
again) stops at trace 1 while the spec's walk (stop when the offset
changes) stops at trace 2. -/
def c3file : List Nat :=
  mkhdr 1 1 5 ++ mkhdr 1 2 5 ++ mkhdr 2 1 7 ++ mkhdr 9 9 7

/-- Two header-only traces of one inline, for instantiating the sorting
theorem. -/
def c3wfile : List Nat := mkhdr 1 1 0 ++ mkhdr 1 2 0

/-- A minimal file for `segy_sample_interval`: text header, binary header,
one 240-byte trace header, zero samples; every field zero. -/
def c4file : List Nat := List.replicate 3840 0

/-- As `c4file` but with the binary-header interval field (bytes 3216-3217,
i.e. biased offset 17) set to 2000 µs. -/
def c4wfile : List Nat :=
  List.replicate 3216 0 ++ [7, 208] ++ List.replicate 622 0

/-- An all-zero 240-byte trace header. -/
def zhdr : List Nat := List.replicate 240 0

/-- Three traces of four one-byte samples each (trace0 = 0,
trace_bsize = 4), with recognizable sample bytes. -/
def c5file : List Nat :=
  zhdr ++ [1, 1, 1, 1] ++ zhdr ++ [2, 2, 2, 2] ++ zhdr ++ [3, 3, 3, 3]

/-- Two traces of four samples with distinct header and sample bytes, for
the mapped/buffered read comparison. -/
def c2file : List Nat := List.replicate 244 5 ++ List.replicate 244 9

/-!  Theorems. -/

/-- `ntohl` produces a 32-bit value. -/
theorem ntohl_lt (w : Nat) : ntohl w < 2 ^ 32 := by
  unfold ntohl
  omega

/-- `ntohl` on a value given by its four bytes. -/
theorem ntohl_bytes (b0 b1 b2 b3 : Nat) (h0 : b0 < 256) (h1 : b1 < 256)
    (h2 : b2 < 256) (h3 : b3 < 256) :
    ntohl (b0 + b1 * 256 + b2 * 65536 + b3 * 16777216)
      = b3 + b2 * 256 + b1 * 65536 + b0 * 16777216 := by
  unfold ntohl
  omega

/-- `ntohl` is an involution on 32-bit values (`ntohl (htonl w) = w`). -/
theorem ntohl_invol (w : Nat) (h : w < 2 ^ 32) : ntohl (ntohl w) = w := by
  obtain ⟨b0, b1, b2, b3, h0, h1, h2, h3, hw⟩ :
      ∃ b0 b1 b2 b3, b0 < 256 ∧ b1 < 256 ∧ b2 < 256 ∧ b3 < 256 ∧
        w = b0 + b1 * 256 + b2 * 65536 + b3 * 16777216 :=
    ⟨w % 256, w / 256 % 256, w / 65536 % 256, w / 16777216 % 256,
      by omega, by omega, by omega, by omega, by omega⟩
  subst hw
  rw [ntohl_bytes b0 b1 b2 b3 h0 h1 h2 h3, ntohl_bytes b3 b2 b1 b0 h3 h2 h1 h0]

/-- Claim C7, counterexample: format code 2 (int32) does not pass the
buffer through unchanged — `segy_to_native` runs its samples through
`ibm2ieee` (the word 0x00001041, IBM 1.0 as stored, becomes 0x3F800000). -/
theorem to_native_format2_changes_bytes : segy_to_native 2 1 [4161] ≠ [4161] := by
  decide

/-- Claim C7 (amended): `segy_to_native` converts format 5 (IEEE float) by
a big-endian-to-host byte swap of each of the first `size` words, and every
other format code — 1, but also 2, 3, 4 and 8 — by IBM-to-IEEE conversion;
words beyond `size` are untouched in both cases. -/
theorem to_native_format_dispatch (format : Int) (size : Nat) (buf : List Nat)
    (h : format ≠ IEEE_FLOAT_4_BYTE) :
    segy_to_native format size buf = (buf.take size).map ibm2ieee ++ buf.drop size
      ∧ segy_to_native IEEE_FLOAT_4_BYTE size buf
          = (buf.take size).map ntohl ++ buf.drop size := by
  unfold segy_to_native
  rw [if_neg h, if_pos rfl]
  exact ⟨rfl, rfl⟩

/-- Witness for `to_native_format_dispatch` at format 1. -/
theorem to_native_format_dispatch_witness :
    (1 : Int) ≠ IEEE_FLOAT_4_BYTE ∧
      segy_to_native 1 1 [4161, 7] = [4161].map ibm2ieee ++ [7] := by
  refine ⟨by decide, ?_⟩
  have h := (to_native_format_dispatch 1 1 [4161, 7] (by decide)).1
  simpa using h

/-- The two EBCDIC tables are mutually inverse: `e2a[a2e[c]] = c` for every
byte value. -/
theorem e2a_a2e_id : ∀ c, c < 256 → e2a (a2e c) = c := by decide

/-- `a2e` maps no nonzero byte to the terminator. -/
theorem a2e_pos : ∀ c, c < 256 → c ≠ 0 → a2e c ≠ 0 := by decide

/-- Claim C9: both transcoders process their input only up to the first
0x00 byte: on a buffer `pre ++ 0 :: post` with no zero in `pre`, exactly
the bytes of `pre` are transcoded through the lookup table, the output is
terminated with 0x00 right after them, and the bytes of `post` have no
effect (the result does not depend on `post`). -/
theorem transcode_stops_at_first_nul (pre post : List Nat) (h : 0 ∉ pre) :
    ebcdic2ascii (pre ++ 0 :: post) = pre.map e2a ++ [0]
      ∧ ascii2ebcdic (pre ++ 0 :: post) = pre.map a2e ++ [0] := by
  induction pre with
  | nil => exact ⟨rfl, rfl⟩
  | cons c rest ih =>
      have hc : c ≠ 0 := fun hc => h (hc ▸ List.mem_cons_self c rest)
      have hr : 0 ∉ rest := fun hr => h (List.mem_cons_of_mem c hr)
      obtain ⟨ih1, ih2⟩ := ih hr
      constructor
      · show ebcdic2ascii (c :: (rest ++ 0 :: post)) = _
        rw [ebcdic2ascii, if_neg hc, ih1]
        rfl
      · show ascii2ebcdic (c :: (rest ++ 0 :: post)) = _
        rw [ascii2ebcdic, if_neg hc, ih2]
        rfl

/-- Witness for `transcode_stops_at_first_nul`: EBCDIC 0xC1 ('A'). -/
theorem transcode_stops_at_first_nul_witness :
    (0 ∉ [0xC1]) ∧
      (ebcdic2ascii ([0xC1] ++ 0 :: [0x99]) = [0xC1].map e2a ++ [0]
        ∧ ascii2ebcdic ([0xC1] ++ 0 :: [0x99]) = [0xC1].map a2e ++ [0]) :=
  ⟨by decide, transcode_stops_at_first_nul [0xC1] [0x99] (by decide)⟩

/-- Claim C8: on every text buffer the library itself can produce — the
image under `ascii2ebcdic` of a buffer of bytes — decoding with
`ebcdic2ascii` and re-encoding with `ascii2ebcdic` is the identity. -/
theorem ascii_ebcdic_roundtrip (a : List Nat) (h : ∀ c ∈ a, c < 256) :
    ascii2ebcdic (ebcdic2ascii (ascii2ebcdic a)) = ascii2ebcdic a := by
  induction a with
  | nil => rfl
  | cons c rest ih =>
      have hc : c < 256 := h c (List.mem_cons_self c rest)
      have hrest : ∀ x ∈ rest, x < 256 := fun x hx => h x (List.mem_cons_of_mem c hx)
      by_cases hz : c = 0
      · subst hz
        rw [ascii2ebcdic, if_pos rfl]
        rfl
      · have ha : a2e c ≠ 0 := a2e_pos c hc hz
        rw [ascii2ebcdic, if_neg hz, ebcdic2ascii, if_neg ha, e2a_a2e_id c hc,
          ascii2ebcdic, if_neg hz, ih hrest]

/-- Witness for `ascii_ebcdic_roundtrip`: the ASCII buffer "AB". -/
theorem ascii_ebcdic_roundtrip_witness :
    (∀ c ∈ [65, 66], c < 256) ∧
      ascii2ebcdic (ebcdic2ascii (ascii2ebcdic [65, 66])) = ascii2ebcdic [65, 66] :=
  ⟨by decide, ascii_ebcdic_roundtrip [65, 66] (by decide)⟩

/-- Claim C5: evaluation at the failing input.  With
`line_trace0 = 1, line_length = 1, stride = 1, offsets = 2`,
`segy_read_line` reads trace 1 (samples 2,2,2,2 of `c5file`) while
`segy_write_line` — which additionally multiplies `line_trace0` by
`offsets` — writes trace 2: afterwards trace 2 holds the written samples
and trace 1 is untouched.  The claim's common position
`line_trace0 + k · stride · offsets = 1` is accessed only by the read. -/
theorem read_write_line_positions_differ :
    segy_read_line ⟨c5file, false, "r+b"⟩ 1 1 1 2 0 4 = .ok [2, 2, 2, 2]
      ∧ (segy_write_line ⟨c5file, false, "r+b"⟩ 1 1 1 2 [9, 9, 9, 9] 0 4).1 = .ok ()
      ∧ (segy_write_line ⟨c5file, false, "r+b"⟩ 1 1 1 2 [9, 9, 9, 9] 0 4).2.drop 728
          = [9, 9, 9, 9]
      ∧ ((segy_write_line ⟨c5file, false, "r+b"⟩ 1 1 1 2 [9, 9, 9, 9] 0 4).2.drop 484).take 4
          = [2, 2, 2, 2] := by
  refine ⟨by decide, by decide, by decide, by decide⟩

/-- Claim C6, counterexample: on a memory-mapped handle opened "rb" a
trace-header write is *not* refused — the mapped branch copies into the
mapping and reports OK (in the running process this store hits a
PROT_READ mapping and faults; it is not turned into an error return). -/
theorem readonly_mapped_write_not_refused :
    segy_write_traceheader ⟨List.replicate 240 0, true, "rb"⟩ 0
        (List.replicate 240 1) 0 0
      = (.ok (), List.replicate 240 1)
      ∧ List.replicate 240 1 ≠ List.replicate 240 0 := by
  constructor
  · decide
  · decide

/-- Claim C6 (amended): on a handle opened "rb" that is *not* memory
mapped, every write operation is refused — the stream write transfers
nothing, the operation returns `SEGY_FWRITE_ERROR`, and the file contents
are unchanged.  (segy.c never consults the stored mode; the refusal comes
from stdio rejecting writes on a read-only stream.) -/
theorem readonly_unmapped_writes_refused (contents : List Nat) (tn : Nat)
    (buf : List Nat) (trace0 : Int) (bsize : Nat) (pos : Nat)
    (h0 : 0 ≤ trace0) (hbs : bsize ≠ 0) :
    segy_write_traceheader ⟨contents, false, "rb"⟩ tn buf trace0 bsize
        = (.error .FWRITE, contents)
      ∧ segy_writetrace ⟨contents, false, "rb"⟩ tn buf trace0 bsize
          = (.error .FWRITE, contents)
      ∧ segy_write_binheader ⟨contents, false, "rb"⟩ buf
          = (.error .FWRITE, contents)
      ∧ segy_write_textheader ⟨contents, false, "rb"⟩ pos buf
          = (.error .FWRITE, contents) := by
  have h1 : (0 : Int) ≤ (tn : Int) * ((bsize : Int) + 240) := by positivity
  have hpos : ¬(trace0 + (tn : Int) * ((bsize : Int) + 240) < 0) := by
    push_neg
    linarith
  refine ⟨?_, ?_, ?_, ?_⟩
  · unfold segy_write_traceheader segy_seek fwrite_bytes
    simp [hpos]
  · unfold segy_writetrace segy_seek fwrite_bytes
    simp [hpos]
    omega
  · unfold segy_write_binheader fwrite_bytes
    simp
  · unfold segy_write_textheader fwrite_bytes
    simp

/-- Claim C4, counterexample: when both interval fields are zero the output
parameter is left untouched — on an all-zero file with prior value 5 the
result is 5, not the 0 the claim requires. -/
theorem sample_interval_both_zero_untouched :
    segy_sample_interval ⟨c4file, false, "rb"⟩ 5 = .ok 5 ∧ (5 : ℚ) ≠ 0 := by
  constructor
  · decide
  · decide

/-- Claim C4 (amended): on every readable file, `segy_sample_interval` sets
its output to the trace-header interval in milliseconds when only the
binary-header interval is zero, to the binary-header interval when only the
trace-header interval is zero, to their common value when both are non-zero
and equal — and leaves the output unchanged (it does not set it to zero)
when both are zero. -/
theorem sample_interval_cases (fp : segy_file) (dt : ℚ) (bin th : List Nat)
    (hb : segy_binheader fp = .ok bin)
    (ht : segy_traceheader fp 0 (segy_trace0 bin)
            (segy_trace_bsize (segy_samples bin)) = .ok th) :
    (getbf bin BIN_Interval = 0 ∧ getf th TRACE_SAMPLE_INTERVAL ≠ 0 →
        segy_sample_interval fp dt = .ok ((getf th TRACE_SAMPLE_INTERVAL : ℚ) / 1000))
      ∧ (getf th TRACE_SAMPLE_INTERVAL = 0 ∧ getbf bin BIN_Interval ≠ 0 →
          segy_sample_interval fp dt = .ok ((getbf bin BIN_Interval : ℚ) / 1000))
      ∧ (getf th TRACE_SAMPLE_INTERVAL = getbf bin BIN_Interval ∧
            getbf bin BIN_Interval ≠ 0 →
          segy_sample_interval fp dt = .ok ((getf th TRACE_SAMPLE_INTERVAL : ℚ) / 1000))
      ∧ (getf th TRACE_SAMPLE_INTERVAL = 0 ∧ getbf bin BIN_Interval = 0 →
          segy_sample_interval fp dt = .ok dt) := by
  unfold segy_sample_interval
  rw [hb]
  simp only []
  rw [ht]
  simp only []
  refine ⟨fun h => ?_, fun h => ?_, fun h => ?_, fun h => ?_⟩
  · rw [if_neg (by tauto), if_pos h.1]
  · rw [if_neg (by tauto), if_neg h.2, if_pos h.1]
  · have htr : getf th TRACE_SAMPLE_INTERVAL ≠ 0 := by rw [h.1]; exact h.2
    rw [if_neg (by tauto), if_neg h.2, if_neg htr, if_pos h.1]
  · rw [if_pos ⟨h.1, h.2⟩]

/-- Witness for `sample_interval_cases`: binary interval 2000 µs, trace
interval 0 gives 2 ms. -/
theorem sample_interval_cases_witness :
    segy_sample_interval ⟨c4wfile, false, "rb"⟩ 5 = .ok 2 := by
  have h := (sample_interval_cases ⟨c4wfile, false, "rb"⟩ 5
      (sliceBytes c4wfile 3200 400) (sliceBytes c4wfile 3600 240)
      (by decide) (by decide)).2.1 ⟨by decide, by decide⟩
  rw [h, show getbf (sliceBytes c4wfile 3200 400) BIN_Interval = 2000 from by decide]
  have h2 : ((2000 : Int) : ℚ) / 1000 = 2 := by norm_num
  rw [h2]

/-- A seek to a position inside the file (for the mapped check; any
nonnegative position for the stream) succeeds on both backends. -/
theorem segy_seek_in_range (contents : List Nat) (mapped : Bool) (mode : String)
    (t : Nat) (trace0 : Int) (bsize : Nat)
    (h0 : 0 ≤ trace_pos trace0 bsize t)
    (h1 : trace_pos trace0 bsize t < (contents.length : Int)) :
    segy_seek ⟨contents, mapped, mode⟩ t trace0 bsize
      = .ok (trace_pos trace0 bsize t) := by
  unfold trace_pos at h0 h1
  cases mapped
  · show (if trace0 + (t : Int) * ((bsize : Int) + 240) < 0
        then (Except.error Err.FSEEK : Except Err Int)
        else Except.ok (trace0 + (t : Int) * ((bsize : Int) + 240))) = _
    rw [if_neg (by omega)]
    rfl
  · show (if (trace0 + (t : Int) * ((bsize : Int) + 240) < 0 ∨
          (contents.length : Int) ≤ trace0 + (t : Int) * ((bsize : Int) + 240))
        then (Except.error Err.FSEEK : Except Err Int)
        else Except.ok (trace0 + (t : Int) * ((bsize : Int) + 240))) = _
    rw [if_neg (by push_neg; omega)]
    rfl

/-- A trace-header read whose 240 bytes lie inside the file succeeds — on
both backends — and returns exactly those bytes. -/
theorem segy_traceheader_in_range (contents : List Nat) (mapped : Bool)
    (mode : String) (t : Nat) (trace0 : Int) (bsize : Nat)
    (h0 : 0 ≤ trace_pos trace0 bsize t)
    (h1 : (trace_pos trace0 bsize t).toNat + 240 ≤ contents.length) :
    segy_traceheader ⟨contents, mapped, mode⟩ t trace0 bsize
      = .ok (headerAt contents trace0 bsize t) := by
  have hs := segy_seek_in_range contents mapped mode t trace0 bsize h0
    (by unfold trace_pos at h0 h1 ⊢; omega)
  unfold segy_traceheader
  rw [hs]
  have hlen : (sliceBytes contents (trace_pos trace0 bsize t).toNat 240).length = 240 := by
    simp only [sliceBytes, List.length_take, List.length_drop]
    omega
  cases mapped
  · show (if (sliceBytes contents (trace_pos trace0 bsize t).toNat 240).length = 240 then
        Except.ok (sliceBytes contents (trace_pos trace0 bsize t).toNat 240)
      else (Except.error Err.FREAD : Except Err (List Nat))) = _
    rw [if_pos hlen]
    rfl
  · rfl

/-- A trace-samples read whose header and samples lie inside the file
succeeds — on both backends — and returns the sample bytes. -/
theorem segy_readtrace_in_range (contents : List Nat) (mapped : Bool)
    (mode : String) (t : Nat) (trace0 : Int) (bsize : Nat)
    (h0 : 0 ≤ trace_pos trace0 bsize t)
    (h1 : (trace_pos trace0 bsize t).toNat + 240 + bsize ≤ contents.length) :
    segy_readtrace ⟨contents, mapped, mode⟩ t trace0 bsize
      = .ok (sliceBytes contents ((trace_pos trace0 bsize t).toNat + 240) bsize) := by
  have hs := segy_seek_in_range contents mapped mode t trace0 bsize h0
    (by unfold trace_pos at h0 h1 ⊢; omega)
  unfold segy_readtrace
  rw [hs]
  have hsk : (skip_traceheader (trace_pos trace0 bsize t)).toNat
      = (trace_pos trace0 bsize t).toNat + 240 := by
    unfold skip_traceheader trace_pos at *
    omega
  have hlen : (sliceBytes contents ((trace_pos trace0 bsize t).toNat + 240) bsize).length
      = bsize := by
    simp only [sliceBytes, List.length_take, List.length_drop]
    omega
  cases mapped
  · show (if (sliceBytes contents
          (skip_traceheader (trace_pos trace0 bsize t)).toNat bsize).length = bsize then
        Except.ok (sliceBytes contents (skip_traceheader (trace_pos trace0 bsize t)).toNat bsize)
      else (Except.error Err.FREAD : Except Err (List Nat))) = _
    rw [hsk, if_pos hlen]
  · show Except.ok (sliceBytes contents
        (skip_traceheader (trace_pos trace0 bsize t)).toNat bsize) = _
    rw [hsk]

/-- Claim C2: for a trace whose bytes lie inside the file, reading the
trace header and reading the trace samples through a memory-mapped handle
returns exactly the same bytes as through a buffered handle on the same
contents, and both succeed. -/
theorem mapped_buffered_reads_agree (contents : List Nat) (mode : String)
    (i : Nat) (trace0 : Int) (bsize : Nat)
    (h0 : 0 ≤ trace_pos trace0 bsize i)
    (h1 : (trace_pos trace0 bsize i).toNat + 240 + bsize ≤ contents.length) :
    segy_traceheader ⟨contents, true, mode⟩ i trace0 bsize
        = segy_traceheader ⟨contents, false, mode⟩ i trace0 bsize
      ∧ segy_readtrace ⟨contents, true, mode⟩ i trace0 bsize
          = segy_readtrace ⟨contents, false, mode⟩ i trace0 bsize
      ∧ segy_traceheader ⟨contents, true, mode⟩ i trace0 bsize
          = .ok (headerAt contents trace0 bsize i)
      ∧ segy_readtrace ⟨contents, true, mode⟩ i trace0 bsize
          = .ok (sliceBytes contents ((trace_pos trace0 bsize i).toNat + 240) bsize) := by
  have hh : (trace_pos trace0 bsize i).toNat + 240 ≤ contents.length := by omega
  refine ⟨?_, ?_, ?_, ?_⟩
  · rw [segy_traceheader_in_range contents true mode i trace0 bsize h0 hh,
      segy_traceheader_in_range contents false mode i trace0 bsize h0 hh]
  · rw [segy_readtrace_in_range contents true mode i trace0 bsize h0 h1,
      segy_readtrace_in_range contents false mode i trace0 bsize h0 h1]
  · exact segy_traceheader_in_range contents true mode i trace0 bsize h0 hh
  · exact segy_readtrace_in_range contents true mode i trace0 bsize h0 h1

/-- Witness for `mapped_buffered_reads_agree` on a 2-trace file. -/
theorem mapped_buffered_reads_agree_witness :
    ((0 : Int) ≤ trace_pos 0 4 1 ∧ (trace_pos 0 4 1).toNat + 240 + 4 ≤ c2file.length) ∧
      segy_traceheader ⟨c2file, true, "rb"⟩ 1 0 4
        = segy_traceheader ⟨c2file, false, "rb"⟩ 1 0 4 :=
  ⟨⟨by decide, by decide⟩,
    (mapped_buffered_reads_agree c2file "rb" 1 0 4 (by decide) (by decide)).1⟩

/-- Witness for `readonly_unmapped_writes_refused`. -/
theorem readonly_unmapped_writes_refused_witness :
    ((0 : Int) ≤ 0 ∧ (4 : Nat) ≠ 0) ∧
      segy_write_traceheader ⟨c5file, false, "rb"⟩ 0 [1, 2, 3] 0 4
        = (.error .FWRITE, c5file) :=
  ⟨⟨by decide, by decide⟩,
    (readonly_unmapped_writes_refused c5file 0 [1, 2, 3] 0 4 0 (by decide) (by decide)).1⟩

theorem trace_pos_toNat (trace0 bsize t : Nat) :
    (trace_pos (trace0 : Int) bsize t).toNat = trace0 + t * (bsize + 240) := by
  unfold trace_pos
  rw [show ((trace0 : Int) + (t : Int) * ((bsize : Int) + 240))
      = ((trace0 + t * (bsize + 240) : Nat) : Int) by push_cast; ring]
  omega

theorem trace_pos_nonneg (trace0 bsize t : Nat) :
    0 ≤ trace_pos (trace0 : Int) bsize t := by
  unfold trace_pos
  positivity

theorem trace_pos_bound (trace0 T bsize t : Nat) (hlt : t < T) (len : Nat)
    (hlen : len = trace0 + T * (bsize + 240)) :
    (trace_pos (trace0 : Int) bsize t).toNat + 240 ≤ len := by
  rw [trace_pos_toNat, hlen]
  have h2 : (t + 1) * (bsize + 240) ≤ T * (bsize + 240) :=
    Nat.mul_le_mul_right _ hlt
  have h3 : (t + 1) * (bsize + 240) = t * (bsize + 240) + (bsize + 240) :=
    Nat.succ_mul t (bsize + 240)
  omega

/-- `segy_traces` on a file of exactly `T` traces returns `T`. -/
theorem segy_traces_exact (contents : List Nat) (mapped : Bool) (mode : String)
    (trace0 T bsize : Nat)
    (hlen : contents.length = trace0 + T * (bsize + 240))
    (hsz : contents.length < 2 ^ 64) :
    segy_traces ⟨contents, mapped, mode⟩ (trace0 : Int) bsize = .ok T := by
  have hkey : (((((contents.length : Int)) - (trace0 : Int)) % (2 ^ 64)).toNat
      = T * (bsize + 240)) := by
    rw [hlen]
    rw [hlen] at hsz
    have hc : ((trace0 + T * (bsize + 240) : Nat) : Int)
        = (trace0 : Int) + ((T * (bsize + 240) : Nat) : Int) := by push_cast; ring
    rw [hc]
    omega
  unfold segy_traces
  show (if ((((contents.length : Int)) - (trace0 : Int)) % (2 ^ 64)).toNat % (bsize + 240) = 0
      then Except.ok (((((contents.length : Int)) - (trace0 : Int)) % (2 ^ 64)).toNat / (bsize + 240))
      else (Except.error Err.TRACE_SIZE_MISMATCH : Except Err Nat)) = Except.ok T
  rw [hkey, if_pos (Nat.mul_mod_left T (bsize + 240))]
  rw [Nat.mul_div_cancel T (by omega : 0 < bsize + 240)]

/-- The walk of `segy_sorting` returns the inline/crossline values of the
trace at `stop_index`, as long as all the traces it can touch are inside
the file. -/
theorem sorting_walk_eq (contents : List Nat) (mapped : Bool) (mode : String)
    (il xl off0 : Int) (trace0 T bsize : Nat)
    (hlen : contents.length = trace0 + T * (bsize + 240)) :
    ∀ rem t, t + rem + 1 ≤ T →
      sorting_walk ⟨contents, mapped, mode⟩ il xl off0 (trace0 : Int) bsize t rem
        = .ok (fieldAt contents (trace0 : Int) bsize
                 (stop_index (fun u => fieldAt contents (trace0 : Int) bsize u field_offset)
                   off0 t rem) il,
               fieldAt contents (trace0 : Int) bsize
                 (stop_index (fun u => fieldAt contents (trace0 : Int) bsize u field_offset)
                   off0 t rem) xl) := by
  intro rem
  induction rem with
  | zero =>
      intro t hb
      have hread := segy_traceheader_in_range contents mapped mode t (trace0 : Int) bsize
        (trace_pos_nonneg trace0 bsize t)
        (trace_pos_bound trace0 T bsize t (by omega) contents.length hlen)
      simp only [sorting_walk, stop_index, fieldAt, hread]
  | succ rem ih =>
      intro t hb
      have hread := segy_traceheader_in_range contents mapped mode t (trace0 : Int) bsize
        (trace_pos_nonneg trace0 bsize t)
        (trace_pos_bound trace0 T bsize t (by omega) contents.length hlen)
      simp only [sorting_walk, stop_index, fieldAt, hread]
      by_cases hoff : off0 = getf (headerAt contents (trace0 : Int) bsize t) field_offset
      · rw [if_neg (not_not_intro hoff), if_neg (not_not_intro hoff)]
      · rw [if_pos hoff, if_pos hoff]
        have := ih (t + 1) (by omega)
        simp only [fieldAt] at this
        exact this

/-- Claim C3 (amended): for every file with T ≥ 2 traces and valid
inline/crossline field offsets, `segy_sorting` returns CROSSLINE when
traces 0 and T−1 have equal inline numbers; otherwise INLINE when they
have equal crossline numbers; otherwise INLINE when trace 0 and trace 1
have equal inline numbers; otherwise CROSSLINE when they have equal
crossline numbers; otherwise InvalidSorting — where "trace 1" is the trace
the code's walk stops at: the first trace whose offset field *equals*
trace 0's offset again (not the spec's "until the offset changes"), or
trace T−1 when no such trace exists. -/
theorem segy_sorting_characterized
    (contents : List Nat) (mapped : Bool) (mode : String) (il xl : Int)
    (trace0 T bsize : Nat)
    (hT : 2 ≤ T)
    (hlen : contents.length = trace0 + T * (bsize + 240))
    (hsz : contents.length < 2 ^ 64)
    (hil0 : 0 ≤ il) (hil1 : il < 240) (hil2 : field_size il.toNat ≠ 0)
    (hxl0 : 0 ≤ xl) (hxl1 : xl < 240) (hxl2 : field_size xl.toNat ≠ 0) :
    segy_sorting ⟨contents, mapped, mode⟩ il xl (trace0 : Int) bsize
      = sorting_table contents (trace0 : Int) bsize il xl
          (stop_index (fun u => fieldAt contents (trace0 : Int) bsize u field_offset)
            (fieldAt contents (trace0 : Int) bsize 0 field_offset) 1 (T - 2))
          (T - 1) := by
  have hread0 := segy_traceheader_in_range contents mapped mode 0 (trace0 : Int) bsize
    (trace_pos_nonneg trace0 bsize 0)
    (trace_pos_bound trace0 T bsize 0 (by omega) contents.length hlen)
  have htr := segy_traces_exact contents mapped mode trace0 T bsize hlen hsz
  have hwalk := sorting_walk_eq contents mapped mode il xl
    (getf (headerAt contents (trace0 : Int) bsize 0) field_offset) trace0 T bsize hlen
    (T - 2) 1 (by omega)
  have hreadl := segy_traceheader_in_range contents mapped mode (T - 1) (trace0 : Int) bsize
    (trace_pos_nonneg trace0 bsize (T - 1))
    (trace_pos_bound trace0 T bsize (T - 1) (by omega) contents.length hlen)
  unfold segy_sorting
  simp only [hread0]
  rw [if_neg (by omega : ¬(il < 0 ∨ 240 ≤ il)), if_neg (by omega : ¬(xl < 0 ∨ 240 ≤ xl)),
    if_neg (by push_neg; exact ⟨hil2, hxl2⟩)]
  simp only [htr, hwalk, hreadl, sorting_table, fieldAt]

/-- Claim C3, counterexample: on `c3file` the tie-break applied at the
*spec's* walk-stop trace (first offset change: trace 2) predicts CROSSLINE,
but `segy_sorting` — whose walk stops when the offset *returns to* trace
0's offset (trace 1) — returns INLINE. -/
theorem sorting_walk_claim_diverges :
    segy_sorting ⟨c3file, false, "rb"⟩ 189 193 0 0 = .ok INLINE_SORTING
      ∧ detect_sorting_claimed c3file 0 0 4 189 193 = .ok CROSSLINE_SORTING
      ∧ Except.ok (ε := Err) INLINE_SORTING ≠ .ok CROSSLINE_SORTING := by
  refine ⟨by decide, by decide, by decide⟩

/-- Witness for `segy_sorting_characterized` on a 2-trace file. -/
theorem segy_sorting_characterized_witness :
    (2 ≤ 2 ∧ c3wfile.length = 0 + 2 * (0 + 240)) ∧
      segy_sorting ⟨c3wfile, false, "rb"⟩ 189 193 ((0 : Nat) : Int) 0
        = sorting_table c3wfile ((0 : Nat) : Int) 0 189 193
            (stop_index (fun u => fieldAt c3wfile ((0 : Nat) : Int) 0 u field_offset)
              (fieldAt c3wfile ((0 : Nat) : Int) 0 0 field_offset) 1 (2 - 2))
            (2 - 1) :=
  ⟨⟨by decide, by decide⟩,
    segy_sorting_characterized c3wfile false "rb" 189 193 0 2 0 (by decide) (by decide)
      (by decide) (by decide) (by decide) (by decide) (by decide) (by decide) (by decide)⟩
/-- A buffered seek to any nonnegative position succeeds. -/
theorem segy_seek_buffered (contents : List Nat) (mode : String) (t : Nat)
    (trace0 : Int) (bsize : Nat) (h0 : 0 ≤ trace_pos trace0 bsize t) :
    segy_seek ⟨contents, false, mode⟩ t trace0 bsize
      = .ok (trace_pos trace0 bsize t) := by
  unfold trace_pos at h0
  show (if trace0 + (t : Int) * ((bsize : Int) + 240) < 0
      then (Except.error Err.FSEEK : Except Err Int)
      else Except.ok (trace0 + (t : Int) * ((bsize : Int) + 240))) = _
  rw [if_neg (by omega)]
  rfl

/-- Reading a trace header past the end of the file fails on both
backends: the mapped seek rejects the position, the buffered read comes up
short. -/
theorem segy_traceheader_past_end (contents : List Nat) (mapped : Bool)
    (mode : String) (t : Nat) (trace0 : Int) (bsize : Nat)
    (h : (contents.length : Int) < trace_pos trace0 bsize t) :
    ∃ e, segy_traceheader ⟨contents, mapped, mode⟩ t trace0 bsize = .error e := by
  cases mapped
  · refine ⟨.FREAD, ?_⟩
    have h0 : 0 ≤ trace_pos trace0 bsize t := by
      have hc : (0 : Int) ≤ contents.length := by positivity
      omega
    have hs := segy_seek_buffered contents mode t trace0 bsize h0
    unfold segy_traceheader
    rw [hs]
    show (if (sliceBytes contents (trace_pos trace0 bsize t).toNat 240).length = 240 then
        Except.ok (sliceBytes contents (trace_pos trace0 bsize t).toNat 240)
      else (Except.error Err.FREAD : Except Err (List Nat))) = _
    rw [if_neg (by
      simp only [sliceBytes, List.length_take, List.length_drop]
      omega)]
  · refine ⟨.FSEEK, ?_⟩
    have hs : segy_seek ⟨contents, true, mode⟩ t trace0 bsize = .error .FSEEK := by
      unfold trace_pos at h
      show (if (trace0 + (t : Int) * ((bsize : Int) + 240) < 0 ∨
          (contents.length : Int) ≤ trace0 + (t : Int) * ((bsize : Int) + 240))
        then (Except.error Err.FSEEK : Except Err Int)
        else Except.ok (trace0 + (t : Int) * ((bsize : Int) + 240))) = _
      rw [if_pos (Or.inr (by omega))]
    unfold segy_traceheader
    rw [hs]

/-- `count_lines_loop` is fuel-monotone: once it finishes within some fuel,
more fuel gives the same outcome. -/
theorem count_lines_loop_mono (fp : segy_file) (field : Int) (offsets : Nat)
    (fl fo : Int) (trace0 : Int) (bsize : Nat) :
    ∀ fuel fuel' curr lines r, fuel ≤ fuel' →
      count_lines_loop fp field offsets fl fo trace0 bsize fuel curr lines = some r →
      count_lines_loop fp field offsets fl fo trace0 bsize fuel' curr lines = some r := by
  intro fuel
  induction fuel with
  | zero =>
      intro fuel' curr lines r _ hsome
      exact absurd hsome (by simp [count_lines_loop])
  | succ n ih =>
      intro fuel' curr lines r hle hsome
      obtain ⟨m, rfl⟩ : ∃ m, fuel' = m + 1 := ⟨fuel' - 1, by omega⟩
      simp only [count_lines_loop] at hsome ⊢
      cases hread : segy_traceheader fp curr trace0 bsize with
      | error e => rw [hread] at hsome; exact hsome
      | ok hh =>
          rw [hread] at hsome
          have hsome2 : (if fo = getf hh field_offset ∧ getf hh field = fl
              then some (Except.ok lines)
              else count_lines_loop fp field offsets fl fo trace0 bsize n
                (curr + offsets) (lines + 1)) = some r := hsome
          show (if fo = getf hh field_offset ∧ getf hh field = fl
              then some (Except.ok lines)
              else count_lines_loop fp field offsets fl fo trace0 bsize m
                (curr + offsets) (lines + 1)) = some r
          by_cases hbrk : fo = getf hh field_offset ∧ getf hh field = fl
          · rw [if_pos hbrk] at hsome2 ⊢; exact hsome2
          · rw [if_neg hbrk] at hsome2 ⊢
            exact ih m (curr + offsets) (lines + 1) r (by omega) hsome2

/-- `count_lines_loop` finishes (with a break or a read error) within any
fuel that pushes the inspected position past the end of the file. -/
theorem count_lines_loop_halts (contents : List Nat) (mapped : Bool) (mode : String)
    (field : Int) (offsets : Nat) (fl fo : Int) (trace0 : Int) (bsize : Nat) :
    ∀ (fuel curr lines : Nat),
      (contents.length : Int) < trace_pos trace0 bsize curr
          + (fuel : Int) * ((offsets : Int) * ((bsize : Int) + 240)) →
      ∃ r, count_lines_loop ⟨contents, mapped, mode⟩ field offsets fl fo trace0 bsize
            (fuel + 1) curr lines = some r := by
  intro fuel
  induction fuel with
  | zero =>
      intro curr lines hbound
      obtain ⟨e, he⟩ := segy_traceheader_past_end contents mapped mode curr trace0 bsize
        (by push_cast at hbound; omega)
      refine ⟨.error e, ?_⟩
      simp only [count_lines_loop, he]
  | succ n ih =>
      intro curr lines hbound
      simp only [count_lines_loop]
      cases hread : segy_traceheader ⟨contents, mapped, mode⟩ curr trace0 bsize with
      | error e => exact ⟨.error e, rfl⟩
      | ok hh =>
          show ∃ r, (if fo = getf hh field_offset ∧ getf hh field = fl
              then some (Except.ok lines)
              else count_lines_loop ⟨contents, mapped, mode⟩ field offsets fl fo trace0
                bsize (n + 1) (curr + offsets) (lines + 1)) = some r
          by_cases hbrk : fo = getf hh field_offset ∧ getf hh field = fl
          · exact ⟨.ok lines, by rw [if_pos hbrk]⟩
          · have hb2 : (contents.length : Int) < trace_pos trace0 bsize (curr + offsets)
                + (n : Int) * ((offsets : Int) * ((bsize : Int) + 240)) := by
              unfold trace_pos at hbound ⊢
              push_cast at hbound ⊢
              ring_nf at hbound ⊢
              linarith
            obtain ⟨r, hr⟩ := ih (curr + offsets) (lines + 1) hb2
            exact ⟨r, by rw [if_neg hbrk]; exact hr⟩

/-- Claim C10: for every offsets ≥ 1 the line-counting loop of
`count_lines` terminates on every file: the inspected trace index grows by
`offsets` each iteration, so some fuel bound exists past which the result
is stable — either a line count (the first (line, offset) pair recurred)
or the error of the header read that failed once the index passed the last
trace.  The loop never runs forever. -/
theorem count_lines_terminates (contents : List Nat) (mapped : Bool) (mode : String)
    (field : Int) (offsets : Nat) (trace0 : Int) (bsize : Nat)
    (hoff : 1 ≤ offsets) :
    ∃ n r, ∀ fuel, n ≤ fuel →
      count_lines ⟨contents, mapped, mode⟩ field offsets trace0 bsize fuel = some r := by
  unfold count_lines
  cases h0 : segy_traceheader ⟨contents, mapped, mode⟩ 0 trace0 bsize with
  | error e => exact ⟨0, .error e, fun fuel _ => rfl⟩
  | ok header =>
      show ∃ n r, ∀ fuel, n ≤ fuel →
        (match segy_get_field header field with
         | .error e => some (.error e)
         | .ok first_lineno =>
           match segy_get_field header field_offset with
           | .error e => some (.error e)
           | .ok first_offset =>
             count_lines_loop ⟨contents, mapped, mode⟩ field offsets first_lineno
               first_offset trace0 bsize fuel offsets 1) = some r
      cases h1 : segy_get_field header field with
      | error e => exact ⟨0, .error e, fun fuel _ => rfl⟩
      | ok fl =>
          show ∃ n r, ∀ fuel, n ≤ fuel →
            (match segy_get_field header field_offset with
             | .error e => some (.error e)
             | .ok first_offset =>
               count_lines_loop ⟨contents, mapped, mode⟩ field offsets fl
                 first_offset trace0 bsize fuel offsets 1) = some r
          cases h2 : segy_get_field header field_offset with
          | error e => exact ⟨0, .error e, fun fuel _ => rfl⟩
          | ok fo =>
              show ∃ n r, ∀ fuel, n ≤ fuel →
                count_lines_loop ⟨contents, mapped, mode⟩ field offsets fl
                  fo trace0 bsize fuel offsets 1 = some r
              have hδ : (1 : Int) ≤ (offsets : Int) * ((bsize : Int) + 240) := by
                have ho : (1 : Int) ≤ (offsets : Int) := by exact_mod_cast hoff
                have hb : (0 : Int) ≤ (bsize : Int) := by positivity
                nlinarith
              have hF : (contents.length : Int) - trace0
                  ≤ ((((contents.length : Int) - trace0).toNat : Nat) : Int) :=
                Int.self_le_toNat _
              have hb : (contents.length : Int) < trace_pos trace0 bsize offsets
                  + ((((contents.length : Int) - trace0).toNat : Nat) : Int)
                    * ((offsets : Int) * ((bsize : Int) + 240)) := by
                have hQ : (0 : Int) ≤ (offsets : Int) * ((bsize : Int) + 240) := by positivity
                have hFm : ((((contents.length : Int) - trace0).toNat : Nat) : Int) * 1
                    ≤ ((((contents.length : Int) - trace0).toNat : Nat) : Int)
                      * ((offsets : Int) * ((bsize : Int) + 240)) :=
                  mul_le_mul_of_nonneg_left hδ (by positivity)
                rw [mul_one] at hFm
                unfold trace_pos
                omega
              obtain ⟨r, hr⟩ := count_lines_loop_halts contents mapped mode field offsets
                fl fo trace0 bsize (((contents.length : Int) - trace0).toNat) offsets 1 hb
              refine ⟨((contents.length : Int) - trace0).toNat + 1, r, fun fuel hf => ?_⟩
              exact count_lines_loop_mono ⟨contents, mapped, mode⟩ field offsets fl fo
                trace0 bsize (((contents.length : Int) - trace0).toNat + 1) fuel offsets 1 r
                hf hr

/-- Witness for `count_lines_terminates`. -/
theorem count_lines_terminates_witness :
    1 ≤ 1 ∧ ∃ n r, ∀ fuel, n ≤ fuel →
      count_lines ⟨c3wfile, false, "rb"⟩ INLINE_3D 1 0 0 fuel = some r :=
  ⟨by decide, count_lines_terminates c3wfile false "rb" INLINE_3D 1 0 0 (by decide)⟩
/-- The normalization loop of `ibm2ieee` performs exactly `k` left shifts
when the input needs `k` of them to set the top bit. -/
theorem normalize32_shifts (k : Nat) : ∀ (fuel : Nat) (fr : Nat) (exp : Int),
    k ≤ fuel → k ≤ 31 → 2 ^ (31 - k) ≤ fr → fr < 2 ^ (32 - k) →
    normalize32 fuel fr exp = (fr * 2 ^ k, exp - k) := by
  induction k with
  | zero =>
      intro fuel fr exp _ _ h1 h2
      cases fuel with
      | zero => simp [normalize32]
      | succ m =>
          unfold normalize32
          rw [if_neg (by omega)]
          simp
  | succ k ih =>
      intro fuel fr exp hfu hk31 h1 h2
      obtain ⟨m, rfl⟩ : ∃ m, fuel = m + 1 := ⟨fuel - 1, by omega⟩
      have ek : 31 - k = (31 - (k + 1)) + 1 := by omega
      have ek2 : 32 - k = (31 - k) + 1 := by omega
      have ek3 : 32 - (k + 1) = 31 - k := by omega
      have hp1 : (2 : Nat) ^ (31 - k) = 2 ^ (31 - (k + 1)) * 2 := by
        rw [ek, pow_succ]
      have hp2 : (2 : Nat) ^ (32 - k) = 2 ^ (31 - k) * 2 := by
        rw [ek2, pow_succ]
      have hp3 : (2 : Nat) ^ (32 - (k + 1)) = 2 ^ (31 - k) := by rw [ek3]
      have hlt31 : fr < 2 ^ 31 := by
        have hm : (2 : Nat) ^ (31 - k) ≤ 2 ^ 31 := Nat.pow_le_pow_right (by omega) (by omega)
        omega
      have hmod : fr * 2 % 2 ^ 32 = fr * 2 := by
        apply Nat.mod_eq_of_lt
        have hm : (2 : Nat) ^ (31 - k) * 2 ≤ 2 ^ 31 * 2 :=
          Nat.mul_le_mul_right 2 (Nat.pow_le_pow_right (by omega) (by omega))
        omega
      unfold normalize32
      rw [if_pos hlt31, hmod]
      rw [ih m (fr * 2) (exp - 1) (by omega) (by omega) (by omega) (by omega)]
      refine Prod.ext ?_ ?_
      · show fr * 2 * 2 ^ k = fr * 2 ^ (k + 1)
        rw [pow_succ]
        ring
      · show exp - 1 - k = exp - (k + 1 : Nat)
        push_cast
        ring

/-- The renormalization loop of `ieee2ibm` does nothing when the fraction
already has a nonzero top hex digit. -/
theorem renormalize16_stop (fuel fr : Nat) (exp : Int) (h : 2 ^ 28 ≤ fr) :
    renormalize16 fuel fr exp = (fr, exp) := by
  cases fuel with
  | zero => rfl
  | succ m =>
      unfold renormalize16
      rw [if_neg (by omega)]

/-- Value computed by `ibm2ieee` on a normalized IBM pattern in the normal
IEEE range, with the normalization-loop behaviour supplied as a premise. -/
theorem ibm2ieee_normal_aux (s e f k : Nat) (hs : s < 2) (he : e < 128)
    (hf0 : 2 ^ 20 ≤ f) (hf1 : f < 2 ^ 24)
    (hnorm : normalize32 32 (f * 2 ^ 8) ((e : Int) * 4 - 130)
      = (f * 2 ^ 8 * 2 ^ k, (e : Int) * 4 - 130 - (k : Int)))
    (hr1 : 2 ^ 31 ≤ f * 2 ^ 8 * 2 ^ k) (hr2 : f * 2 ^ 8 * 2 ^ k < 2 ^ 32)
    (hlo : 131 + k ≤ 4 * e) (hhi : 4 * e ≤ 384 + k) :
    ibm2ieee (ntohl (s * 2 ^ 31 + e * 2 ^ 24 + f))
      = s * 2 ^ 31 + (4 * e - (130 + k)) * 2 ^ 23 + (f * 2 ^ k - 2 ^ 23) := by
  have hV : s * 2 ^ 31 + e * 2 ^ 24 + f < 2 ^ 32 := by omega
  have h0 : ntohl (s * 2 ^ 31 + e * 2 ^ 24 + f) % 2 ^ 32
      = ntohl (s * 2 ^ 31 + e * 2 ^ 24 + f) := Nat.mod_eq_of_lt (ntohl_lt _)
  have hGF : f * 2 ^ 8 * 2 ^ k = f * 2 ^ k * 2 ^ 8 := by ring
  simp only [ibm2ieee]
  rw [h0, ntohl_invol _ hV]
  rw [show (s * 2 ^ 31 + e * 2 ^ 24 + f) / 2 ^ 31 = s from by omega]
  rw [show (s * 2 ^ 31 + e * 2 ^ 24 + f) * 2 % 2 ^ 32 = e * 2 ^ 25 + f * 2 from by omega]
  rw [show (e * 2 ^ 25 + f * 2) / 2 ^ 25 = e from by omega]
  rw [show (e * 2 ^ 25 + f * 2) * 2 ^ 7 % 2 ^ 32 = f * 2 ^ 8 from by omega]
  rw [if_neg (show ¬(f * 2 ^ 8 = 0) from by omega)]
  simp only [hnorm]
  rw [if_neg (show ¬((e : Int) * 4 - 130 - (k : Int) ≤ 0) from by omega)]
  rw [if_neg (show ¬((255 : Int) ≤ (e : Int) * 4 - 130 - (k : Int)) from by omega)]
  rw [hGF] at hr1 hr2
  rw [hGF]
  rw [show f * 2 ^ k * 2 ^ 8 * 2 % 2 ^ 32 = f * 2 ^ k * 2 ^ 9 - 2 ^ 32 from by omega]
  rw [show (f * 2 ^ k * 2 ^ 9 - 2 ^ 32) / 2 ^ 9 = f * 2 ^ k - 2 ^ 23 from by omega]
  rw [show ((e : Int) * 4 - 130 - (k : Int)).toNat = 4 * e - (130 + k) from by omega]
  omega

/-- `ibm2ieee` on a normalized IBM pattern whose value falls in the normal
IEEE range: sign, rebased exponent and 23-bit mantissa. -/
theorem ibm2ieee_normal (s e f k : Nat) (hs : s < 2) (he : e < 128)
    (hk : lzk f = k) (hf0 : 2 ^ 20 ≤ f) (hf1 : f < 2 ^ 24)
    (hlo : 131 + k ≤ 4 * e) (hhi : 4 * e ≤ 384 + k) :
    ibm2ieee (ntohl (s * 2 ^ 31 + e * 2 ^ 24 + f))
      = s * 2 ^ 31 + (4 * e - (130 + k)) * 2 ^ 23 + (f * 2 ^ k - 2 ^ 23) := by
  unfold lzk at hk
  by_cases h23 : 2 ^ 23 ≤ f
  · rw [if_pos h23] at hk
    subst hk
    exact ibm2ieee_normal_aux s e f 0 hs he hf0 hf1
      (normalize32_shifts 0 32 (f * 2 ^ 8) ((e : Int) * 4 - 130)
        (by omega) (by omega) (by omega) (by omega))
      (by omega) (by omega) hlo hhi
  · rw [if_neg h23] at hk
    by_cases h22 : 2 ^ 22 ≤ f
    · rw [if_pos h22] at hk
      subst hk
      exact ibm2ieee_normal_aux s e f 1 hs he hf0 hf1
        (normalize32_shifts 1 32 (f * 2 ^ 8) ((e : Int) * 4 - 130)
          (by omega) (by omega) (by omega) (by omega))
        (by omega) (by omega) hlo hhi
    · rw [if_neg h22] at hk
      by_cases h21 : 2 ^ 21 ≤ f
      · rw [if_pos h21] at hk
        subst hk
        exact ibm2ieee_normal_aux s e f 2 hs he hf0 hf1
          (normalize32_shifts 2 32 (f * 2 ^ 8) ((e : Int) * 4 - 130)
            (by omega) (by omega) (by omega) (by omega))
          (by omega) (by omega) hlo hhi
      · rw [if_neg h21] at hk
        subst hk
        exact ibm2ieee_normal_aux s e f 3 hs he hf0 hf1
          (normalize32_shifts 3 32 (f * 2 ^ 8) ((e : Int) * 4 - 130)
            (by omega) (by omega) (by omega) (by omega))
          (by omega) (by omega) hlo hhi

/-- `ieee2ibm` maps the IEEE pattern produced by `ibm2ieee` back to the
original normalized IBM pattern. -/
theorem ieee2ibm_normal (s e f k : Nat) (hs : s < 2) (he : e < 128)
    (hk3 : k ≤ 3) (hf0 : 2 ^ 20 ≤ f)
    (hG0 : 2 ^ 23 ≤ f * 2 ^ k) (hG1 : f * 2 ^ k < 2 ^ 24)
    (hlo : 131 + k ≤ 4 * e) (hhi : 4 * e ≤ 384 + k) :
    ieee2ibm (s * 2 ^ 31 + (4 * e - (130 + k)) * 2 ^ 23 + (f * 2 ^ k - 2 ^ 23))
      = ntohl (s * 2 ^ 31 + e * 2 ^ 24 + f) := by
  have hE : 4 * e - (130 + k) ≤ 254 := by omega
  have hV : s * 2 ^ 31 + (4 * e - (130 + k)) * 2 ^ 23 + (f * 2 ^ k - 2 ^ 23) < 2 ^ 32 := by
    omega
  simp only [ieee2ibm]
  rw [Nat.mod_eq_of_lt hV]
  rw [show (s * 2 ^ 31 + (4 * e - (130 + k)) * 2 ^ 23 + (f * 2 ^ k - 2 ^ 23)) / 2 ^ 31 = s
    from by omega]
  rw [show (s * 2 ^ 31 + (4 * e - (130 + k)) * 2 ^ 23 + (f * 2 ^ k - 2 ^ 23)) * 2 % 2 ^ 32
      = (4 * e - (130 + k)) * 2 ^ 24 + (f * 2 ^ k - 2 ^ 23) * 2 from by omega]
  rw [show ((4 * e - (130 + k)) * 2 ^ 24 + (f * 2 ^ k - 2 ^ 23) * 2) / 2 ^ 24
      = 4 * e - (130 + k) from by omega]
  rw [show ((4 * e - (130 + k)) * 2 ^ 24 + (f * 2 ^ k - 2 ^ 23) * 2) * 2 ^ 8 % 2 ^ 32
      = (f * 2 ^ k - 2 ^ 23) * 2 ^ 9 from by omega]
  rw [if_neg (show ¬(((4 * e - (130 + k) : Nat) : Int) = 255) from by omega)]
  rw [if_pos (show (0 : Int) < ((4 * e - (130 + k) : Nat) : Int) from by omega)]
  rw [show (f * 2 ^ k - 2 ^ 23) * 2 ^ 9 / 2 + 2 ^ 31 = f * 2 ^ k * 2 ^ 8 from by omega]
  simp only [ieee2ibm_tail]
  rw [show ((4 * e - (130 + k) : Nat) : Int) + 130 = 4 * (e : Int) - (k : Int) from by omega]
  rw [show ((-(4 * (e : Int) - (k : Int))) % 4).toNat = k from by omega]
  rw [show f * 2 ^ k * 2 ^ 8 / 2 ^ k = f * 2 ^ 8 from by
    rw [show f * 2 ^ k * 2 ^ 8 = f * 2 ^ 8 * 2 ^ k from by ring]
    exact Nat.mul_div_cancel (f * 2 ^ 8) (Nat.pos_pow_of_pos k (by omega))]
  rw [show (4 * (e : Int) - (k : Int) + 3) / 4 = (e : Int) from by omega]
  rw [renormalize16_stop 8 (f * 2 ^ 8) (e : Int) (by omega)]
  rw [show f * 2 ^ 8 / 2 ^ 8 = f from Nat.mul_div_cancel f (by omega)]
  rw [show ((e : Int)).toNat = e from by omega]
  rw [show f + e * 2 ^ 24 + s * 2 ^ 31 = s * 2 ^ 31 + e * 2 ^ 24 + f from by omega]

/-- Claim C1, counterexample: the round-trip is not exact on every 32-bit
pattern.  The stored word 0x00000841 is IBM 0x41080000, an *unnormalized*
encoding of 0.5: decoding gives IEEE 0.5 and re-encoding yields the
normalized IBM word 0x40800000 (stored 0x00008040), not the original. -/
theorem ibm_roundtrip_claim_false : ieee2ibm (ibm2ieee 0x841) ≠ 0x841 := by decide

/-- Claim C1 (amended): for every 32-bit pattern `x` that is a *normalized*
IBM word — fraction and exponent both zero, or the top hex digit of the
fraction nonzero — whose value falls in the IEEE single normal range
(no underflow to denormal or zero, no overflow to infinity),
`ieee2ibm (ibm2ieee x)` gives back exactly `x`.  The pattern is presented
through its big-endian fields: sign `s`, 7-bit exponent `e`, 24-bit
fraction `f`, with `lzk f` the number of leading zero bits of the
normalized fraction. -/
theorem ibm_ieee_exact_roundtrip (x s e f : Nat)
    (hx : x = ntohl (s * 2 ^ 31 + e * 2 ^ 24 + f))
    (hs : s < 2) (he : e < 128) (hf : f < 2 ^ 24)
    (hn : (f = 0 ∧ e = 0) ∨
      (2 ^ 20 ≤ f ∧ 131 + lzk f ≤ 4 * e ∧ 4 * e ≤ 384 + lzk f)) :
    ieee2ibm (ibm2ieee x) = x := by
  subst hx
  rcases hn with ⟨hf0, he0⟩ | ⟨hf0, hlo, hhi⟩
  · subst hf0
    subst he0
    have hcase : s = 0 ∨ s = 1 := by omega
    rcases hcase with h | h <;> subst h <;> decide
  · have hk3 : lzk f ≤ 3 := by unfold lzk; split_ifs <;> omega
    have hG0 : 2 ^ 23 ≤ f * 2 ^ lzk f := by unfold lzk; split_ifs <;> omega
    have hG1 : f * 2 ^ lzk f < 2 ^ 24 := by unfold lzk; split_ifs <;> omega
    rw [ibm2ieee_normal s e f (lzk f) hs he rfl hf0 hf hlo hhi]
    exact ieee2ibm_normal s e f (lzk f) hs he hk3 hf0 hG0 hG1 hlo hhi

/-- Witness for `ibm_ieee_exact_roundtrip`: the stored word 0x00001041 is
IBM 0x41100000 = 1.0 (the spec's scenario S4). -/
theorem ibm_ieee_exact_roundtrip_witness :
    ((0x1041 : Nat) = ntohl (0 * 2 ^ 31 + 65 * 2 ^ 24 + 0x100000)
        ∧ 2 ^ 20 ≤ 0x100000 ∧ 131 + lzk 0x100000 ≤ 4 * 65) ∧
      ieee2ibm (ibm2ieee 0x1041) = 0x1041 :=
  ⟨⟨by decide, by decide, by decide⟩,
    ibm_ieee_exact_roundtrip 0x1041 0 65 0x100000 (by decide) (by decide) (by decide)
      (by decide) (Or.inr ⟨by decide, by decide, by decide⟩)⟩

end Segy
